import Mathlib

/-!
# Verification of the RNNs-learn-robust-policies persistence and container layer

A shallow embedding, in Lean 4, of the database module
(`src/rnns_learn_robust_motor_policies/database.py`) and the labelled-mapping
container (`src/rnns_learn_robust_motor_policies/types.py`) of the
RNNs-learn-robust-policies repository, together with proofs of the behavioural
properties its specification states.

Conventions of the embedding:
* Python scalar values that can appear in catalog columns are modelled by the
  inductive type `PyValue`.
* A catalog row is an association list from column name to value (`Row`);
  the SQLAlchemy session's table contents are a `List Row` in insertion order.
* File contents are byte lists (`Bytes`); the file system is an association
  list from path to contents with overwrite-on-write semantics.
* External hash functions (`hashlib.md5`) are passed as explicit function
  arguments: the properties proved here hold for every deterministic hash.
-/

/-- Python scalar values storable in catalog columns (cf. `get_sql_type`). -/
inductive PyValue where
  | pyBool (b : Bool)
  | pyInt (n : Int)
  | pyStr (s : String)
  | pyNone
deriving DecidableEq, Repr, Inhabited

/-- SQL column types produced by `get_sql_type` in `database.py`, plus the
`DateTime` type used by the statically declared `created_at` column. -/
inductive SqlType where
  | sqlBoolean
  | sqlInteger
  | sqlFloat
  | sqlString
  | sqlJSON
  | sqlDateTime
deriving DecidableEq, Repr

/-- Embedding of `get_sql_type` (database.py lines 115-125); the Python
`float` branch is unreachable from `PyValue` (floats are out of scope) and the
fall-through branch maps everything else to JSON. -/
def get_sql_type : PyValue → SqlType
  | .pyBool _ => .sqlBoolean
  | .pyInt _ => .sqlInteger
  | .pyStr _ => .sqlString
  | .pyNone => .sqlJSON

/-- A catalog row: an association list from column name to stored value.
The `hash` column is stored under the key "hash" like every other column. -/
def Row : Type := List (String × PyValue)

instance : DecidableEq Row := inferInstanceAs (DecidableEq (List (String × PyValue)))
instance : Inhabited Row := inferInstanceAs (Inhabited (List (String × PyValue)))
instance : Membership (String × PyValue) Row :=
  inferInstanceAs (Membership (String × PyValue) (List (String × PyValue)))
instance : Append Row := inferInstanceAs (Append (List (String × PyValue)))
instance : Repr Row := inferInstanceAs (Repr (List (String × PyValue)))

/-- Column access on a row (`getattr(record, key)`), `none` when the column
is absent. -/
def Row.col (r : Row) (key : String) : Option PyValue :=
  List.lookup key r

/-- The value of the `hash` column of a row. -/
def Row.hashCol (r : Row) : Option PyValue := r.col "hash"

/-- One filter condition `getattr(ModelRecord, key) == value` from
`query_model_records`: the row's column equals the given value. -/
def matchesCond (r : Row) (kv : String × PyValue) : Bool :=
  r.col kv.1 == some kv.2

/-- Embedding of `query_model_records` (database.py lines 210-243): with no
filters, all records; with `match_all = true` the conjunction of the filter
conditions, otherwise their disjunction. -/
def query_model_records (rows : List Row) (filters : List (String × PyValue))
    (match_all : Bool := true) : List Row :=
  if filters.isEmpty then rows
  else if match_all then rows.filter (fun r => filters.all (matchesCond r))
  else rows.filter (fun r => filters.any (matchesCond r))

/-- Failure conditions surfaced by the database layer. `multipleModelsFound`
models the `ValueError("Multiple models found ...")` raised by
`get_model_record`; the specification calls this condition `AmbiguousRecord`. -/
inductive DBError where
  | multipleModelsFound
deriving DecidableEq, Repr

/-- Embedding of `get_model_record` (database.py lines 246-257): `none` when no
record matches all filters, the unique match when exactly one does, and the
`ValueError` branch when several do. -/
def get_model_record (rows : List Row) (filters : List (String × PyValue)) :
    Except DBError (Option Row) :=
  let ms := query_model_records rows filters true
  if ms.isEmpty then .ok none
  else if ms.length > 1 then .error .multipleModelsFound
  else .ok (some (ms.headD default))

/-- The row built by `save_model_and_add_record` (database.py lines 305-312):
the `hash` column holds the content hash of the saved model file, and the
remaining columns (notebook id, paths, hyperparameters) follow. -/
def newModelRow (model_hash : String) (otherCols : List (String × PyValue)) : Row :=
  ("hash", .pyStr model_hash) :: otherCols

/-- Embedding of the catalog-row part of `save_model_and_add_record`
(database.py lines 304-323): look up an existing record with the same hash
(raising on ambiguity), delete it if present, then append the new record.
`model_hash` is the content hash returned by `save_with_hash`. -/
def save_model_and_add_record (rows : List Row) (model_hash : String)
    (otherCols : List (String × PyValue)) : Except DBError (List Row) := do
  let model_record := newModelRow model_hash otherCols
  let existing_record ← get_model_record rows [("hash", .pyStr model_hash)]
  match existing_record with
  | none => pure (rows ++ [model_record])
  | some e => pure (rows.erase e ++ [model_record])

/-- How many rows of the catalog carry hash value `v`. -/
def countHash (rows : List Row) (v : PyValue) : Nat :=
  rows.countP (fun r => r.hashCol == some v)

/-- The hash-uniqueness invariant maintained by the catalog (the `hash`
column is declared `unique=True` on `ModelRecord`). -/
def hashUnique (rows : List Row) : Prop :=
  ∀ v : PyValue, countHash rows v ≤ 1

-- Basic lemmas about the query/filter layer

theorem query_hash_filter (rows : List Row) (h : String) :
    query_model_records rows [("hash", .pyStr h)] true
      = rows.filter (fun r => r.hashCol == some (.pyStr h)) := by
  simp only [query_model_records, List.isEmpty_cons, if_false, if_true, Bool.false_eq_true]
  congr 1
  funext r
  simp [matchesCond, Row.hashCol, Row.col]

theorem countHash_filter_length (rows : List Row) (v : PyValue) :
    (rows.filter (fun r => r.hashCol == some v)).length = countHash rows v := by
  simp [countHash, List.countP_eq_length_filter]

theorem countHash_append (rows₁ rows₂ : List Row) (v : PyValue) :
    countHash (rows₁ ++ rows₂) v = countHash rows₁ v + countHash rows₂ v := by
  simp [countHash, List.countP_append]

theorem newModelRow_hashCol (h : String) (cols : List (String × PyValue)) :
    (newModelRow h cols).hashCol = some (.pyStr h) := by
  simp [newModelRow, Row.hashCol, Row.col, List.lookup]

theorem countHash_single_new (h : String) (cols : List (String × PyValue)) (v : PyValue) :
    countHash [newModelRow h cols] v = if (PyValue.pyStr h) = v then 1 else 0 := by
  simp only [countHash, List.countP_cons, List.countP_nil, newModelRow_hashCol]
  by_cases hv : (PyValue.pyStr h) = v <;> simp [hv]

theorem countHash_erase_le (rows : List Row) (e : Row) (v : PyValue) :
    countHash (rows.erase e) v ≤ countHash rows v := by
  exact (List.erase_sublist e rows).countP_le _

/-- C7 helper: `get_model_record` in terms of the match list. -/
theorem get_model_record_eq_match (rows : List Row) (filters : List (String × PyValue)) :
    get_model_record rows filters =
      match query_model_records rows filters true with
      | [] => .ok none
      | [r] => .ok (some r)
      | _ => .error .multipleModelsFound := by
  unfold get_model_record
  cases hq : query_model_records rows filters true with
  | nil => simp
  | cons r rest =>
    cases rest with
    | nil => simp
    | cons r' rest' => simp [List.length_cons]

/-- C7: For every catalog contents and filter set, `get_model_record` returns
`none` when zero rows match all filters, returns the single matching row when
exactly one matches, and fails with the ambiguous-record condition
(`ValueError`, the spec's `AmbiguousRecord`) when more than one matches. -/
theorem get_model_record_trichotomy (rows : List Row) (filters : List (String × PyValue)) :
    (query_model_records rows filters true = [] →
      get_model_record rows filters = .ok none) ∧
    (∀ r : Row, query_model_records rows filters true = [r] →
      get_model_record rows filters = .ok (some r)) ∧
    (2 ≤ (query_model_records rows filters true).length →
      get_model_record rows filters = .error .multipleModelsFound) := by
  refine ⟨fun h0 => ?_, fun r h1 => ?_, fun h2 => ?_⟩
  · rw [get_model_record_eq_match, h0]
  · rw [get_model_record_eq_match, h1]
  · rw [get_model_record_eq_match]
    cases hq : query_model_records rows filters true with
    | nil => rw [hq] at h2; simp at h2
    | cons a rest =>
      cases rest with
      | nil => rw [hq] at h2; simp at h2
      | cons b rest' => rfl

theorem countHash_zero_of_filter_nil (rows : List Row) (v : PyValue)
    (hf : rows.filter (fun r => r.hashCol == some v) = []) : countHash rows v = 0 := by
  rw [← countHash_filter_length, hf]
  rfl

/-- C1: assuming the catalog's hash-uniqueness invariant (the `hash` column is
declared `unique=True`), `save_model_and_add_record` succeeds, afterwards
exactly one catalog row carries the saved payload's hash — namely the freshly
inserted record — and no hash value is carried by two rows. -/
theorem save_model_replace_unique_hash (rows : List Row) (h : String)
    (cols : List (String × PyValue)) (hU : hashUnique rows) :
    ∃ rows', save_model_and_add_record rows h cols = .ok rows' ∧
      countHash rows' (.pyStr h) = 1 ∧
      newModelRow h cols ∈ rows' ∧
      (∀ r ∈ rows', r.hashCol = some (.pyStr h) → r = newModelRow h cols) ∧
      hashUnique rows' := by
  have hq := query_hash_filter rows h
  have hlen := countHash_filter_length rows (.pyStr h)
  have hle : countHash rows (.pyStr h) ≤ 1 := hU _
  cases hf : rows.filter (fun r => r.hashCol == some (.pyStr h)) with
  | nil =>
    have hz : countHash rows (.pyStr h) = 0 := countHash_zero_of_filter_nil rows _ hf
    have hget : get_model_record rows [("hash", .pyStr h)] = .ok none := by
      rw [get_model_record_eq_match, hq, hf]
    refine ⟨rows ++ [newModelRow h cols], ?_, ?_, ?_, ?_, ?_⟩
    · simp only [save_model_and_add_record, hget]
      rfl
    · rw [countHash_append, hz, countHash_single_new]
      simp
    · exact List.mem_append_right _ (List.mem_singleton_self _)
    · intro r hr hrh
      rcases List.mem_append.mp hr with hr1 | hr2
      · exfalso
        have : 1 ≤ countHash rows (.pyStr h) :=
          List.countP_pos_iff.mpr ⟨r, hr1, by simp [hrh]⟩
        omega
      · simpa using hr2
    · intro v
      rw [countHash_append, countHash_single_new]
      by_cases hv : (PyValue.pyStr h) = v
      · rw [if_pos hv, ← hv, hz]
      · rw [if_neg hv]
        have := hU v
        omega
  | cons e rest =>
    cases rest with
    | nil =>
      have he : e ∈ rows ∧ (e.hashCol == some (.pyStr h)) = true := by
        have : e ∈ rows.filter (fun r => r.hashCol == some (.pyStr h)) := by
          rw [hf]; exact List.mem_singleton_self e
        exact ⟨(List.mem_filter.mp this).1, (List.mem_filter.mp this).2⟩
      have hget : get_model_record rows [("hash", .pyStr h)] = .ok (some e) := by
        rw [get_model_record_eq_match, hq, hf]
      have hperm : rows.Perm (e :: rows.erase e) := List.perm_cons_erase he.1
      have hc1 : countHash rows (.pyStr h) = 1 := by rw [← hlen, hf]; rfl
      have hcE : countHash (rows.erase e) (.pyStr h) = 0 := by
        have hp := hperm.countP_eq (fun r => r.hashCol == some (.pyStr h))
        rw [List.countP_cons, he.2] at hp
        have : countHash rows (.pyStr h)
            = countHash (rows.erase e) (.pyStr h) + 1 := hp
        omega
      refine ⟨rows.erase e ++ [newModelRow h cols], ?_, ?_, ?_, ?_, ?_⟩
      · simp only [save_model_and_add_record, hget]
        rfl
      · rw [countHash_append, hcE, countHash_single_new]
        simp
      · exact List.mem_append_right _ (List.mem_singleton_self _)
      · intro r hr hrh
        rcases List.mem_append.mp hr with hr1 | hr2
        · exfalso
          have : 1 ≤ countHash (rows.erase e) (.pyStr h) :=
            List.countP_pos_iff.mpr ⟨r, hr1, by simp [hrh]⟩
          omega
        · simpa using hr2
      · intro v
        rw [countHash_append, countHash_single_new]
        by_cases hv : (PyValue.pyStr h) = v
        · rw [if_pos hv, ← hv, hcE]
        · rw [if_neg hv]
          have h1 : countHash (rows.erase e) v ≤ countHash rows v :=
            countHash_erase_le rows e v
          have h2 := hU v
          omega
    | cons e' rest' =>
      exfalso
      have : countHash rows (.pyStr h) = (e :: e' :: rest').length := by
        rw [← hlen, hf]
      simp [List.length_cons] at this
      omega

/-- Witness for C1: re-saving into a one-row catalog whose single row already
carries hash "a" replaces that row. -/
theorem save_model_replace_unique_hash_witness :
    ∃ rows', save_model_and_add_record [[("hash", .pyStr "a"), ("notebook_id", .pyStr "1-1")]]
        "a" [("notebook_id", .pyStr "1-2")] = .ok rows' ∧
      countHash rows' (.pyStr "a") = 1 ∧
      newModelRow "a" [("notebook_id", .pyStr "1-2")] ∈ rows' ∧
      (∀ r ∈ rows', r.hashCol = some (.pyStr "a") →
        r = newModelRow "a" [("notebook_id", .pyStr "1-2")]) ∧
      hashUnique [[("hash", .pyStr "a"), ("notebook_id", .pyStr "1-1")]] ∧ True :=
  have hU : hashUnique [[("hash", .pyStr "a"), ("notebook_id", .pyStr "1-1")]] := fun v => by
    simp only [countHash, List.countP_cons, List.countP_nil]
    split <;> decide
  let result := save_model_replace_unique_hash
    [[("hash", .pyStr "a"), ("notebook_id", .pyStr "1-1")]] "a"
    [("notebook_id", .pyStr "1-2")] hU
  ⟨result.choose, result.choose_spec.1, result.choose_spec.2.1, result.choose_spec.2.2.1,
    result.choose_spec.2.2.2.1, hU, trivial⟩

/-- Witness for C7: on a two-row catalog, filtering on a unique notebook id
matches exactly one row, and `get_model_record` returns it. -/
theorem get_model_record_trichotomy_witness :
    get_model_record
        [[("hash", .pyStr "a"), ("notebook_id", .pyStr "1-1")],
         [("hash", .pyStr "b"), ("notebook_id", .pyStr "1-2")]]
        [("notebook_id", .pyStr "1-2")]
      = .ok (some [("hash", .pyStr "b"), ("notebook_id", .pyStr "1-2")]) :=
  (get_model_record_trichotomy
      [[("hash", .pyStr "a"), ("notebook_id", .pyStr "1-1")],
       [("hash", .pyStr "b"), ("notebook_id", .pyStr "1-2")]]
      [("notebook_id", .pyStr "1-2")]).2.1
    [("hash", .pyStr "b"), ("notebook_id", .pyStr "1-2")] (by decide)

-- ## Dynamic schema evolution (`update_table_schema`)

/-- One column of a catalog table's schema: its name, SQL type, and
nullability. -/
structure SchemaCol where
  name : String
  ctype : SqlType
  nullable : Bool
deriving DecidableEq, Repr

/-- Embedding of `update_table_schema` (database.py lines 128-149): the set of
existing column names is read once from the inspector; every hyperparameter
key not already present is added as a new nullable column whose type is
inferred by `get_sql_type`; existing columns are untouched. -/
def update_table_schema (schema : List SchemaCol)
    (columns : List (String × PyValue)) : List SchemaCol :=
  let existing_columns := schema.map SchemaCol.name
  schema ++ (columns.filter (fun kv => !decide (kv.1 ∈ existing_columns))).map
    (fun kv => ⟨kv.1, get_sql_type kv.2, true⟩)

/-- The statically declared columns of the `models` table (the `ModelRecord`
class, database.py lines 50-61); cf. `MODEL_RECORD_BASE_ATTRS`. -/
def modelsBaseSchema : List SchemaCol :=
  [⟨"id", .sqlInteger, false⟩,
   ⟨"hash", .sqlString, false⟩,
   ⟨"created_at", .sqlDateTime, true⟩,
   ⟨"notebook_id", .sqlString, false⟩,
   ⟨"model_path", .sqlString, true⟩,
   ⟨"train_history_path", .sqlString, true⟩,
   ⟨"replicate_info_path", .sqlString, true⟩]

/-- Names of the statically declared columns (`MODEL_RECORD_BASE_ATTRS`). -/
def MODEL_RECORD_BASE_ATTRS : List String := modelsBaseSchema.map SchemaCol.name

theorem update_table_schema_name_mem (schema : List SchemaCol)
    (cols : List (String × PyValue)) (n : String) :
    n ∈ (update_table_schema schema cols).map SchemaCol.name ↔
      n ∈ schema.map SchemaCol.name ∨ n ∈ cols.map Prod.fst := by
  simp only [update_table_schema, List.map_append, List.mem_append, List.map_map,
    List.mem_map, Function.comp]
  constructor
  · rintro (hs | ⟨kv, hkv, rfl⟩)
    · exact Or.inl hs
    · exact Or.inr ⟨kv, (List.mem_filter.mp hkv).1, rfl⟩
  · rintro (hs | ⟨kv, hkv, rfl⟩)
    · exact Or.inl hs
    · by_cases hmem : kv.1 ∈ schema.map SchemaCol.name
      · exact Or.inl (by simpa using hmem)
      · exact Or.inr ⟨kv, List.mem_filter.mpr ⟨hkv, by simpa using hmem⟩, rfl⟩

theorem update_table_schema_prefix (schema : List SchemaCol)
    (cols : List (String × PyValue)) :
    (update_table_schema schema cols).take schema.length = schema := by
  simp [update_table_schema, List.take_left]

theorem update_table_schema_added (schema : List SchemaCol)
    (cols : List (String × PyValue)) :
    ∀ c ∈ (update_table_schema schema cols).drop schema.length,
      c.nullable = true ∧ c.name ∉ schema.map SchemaCol.name := by
  intro c hc
  simp only [update_table_schema, List.drop_left, List.mem_map] at hc
  obtain ⟨kv, hkv, rfl⟩ := hc
  exact ⟨rfl, by simpa using (List.mem_filter.mp hkv).2⟩

/-- C3: across any sequence of saves with hyperparameter key sets
`H1, ..., HN`, the catalog's column-name set after folding
`update_table_schema` is the base columns united with `H1 ∪ ... ∪ HN`;
each save keeps the existing columns as an unchanged prefix (nothing is
dropped), and every column it appends is nullable and was not present
before the save. -/
theorem update_table_schema_union_monotone (base : List SchemaCol)
    (saves : List (List (String × PyValue))) :
    (∀ n : String,
      n ∈ (saves.foldl update_table_schema base).map SchemaCol.name ↔
        n ∈ base.map SchemaCol.name ∨ ∃ H ∈ saves, n ∈ H.map Prod.fst) ∧
    (∀ schema : List SchemaCol, ∀ cols : List (String × PyValue),
      (update_table_schema schema cols).take schema.length = schema) ∧
    (∀ schema : List SchemaCol, ∀ cols : List (String × PyValue),
      ∀ c ∈ (update_table_schema schema cols).drop schema.length,
        c.nullable = true ∧ c.name ∉ schema.map SchemaCol.name) := by
  refine ⟨?_, update_table_schema_prefix, update_table_schema_added⟩
  intro n
  induction saves generalizing base with
  | nil => simp
  | cons H rest ih =>
    rw [List.foldl_cons, ih (update_table_schema base H)]
    rw [update_table_schema_name_mem]
    simp only [List.mem_cons]
    constructor
    · rintro ((hb | hH) | ⟨H', hH', hn⟩)
      · exact Or.inl hb
      · exact Or.inr ⟨H, Or.inl rfl, hH⟩
      · exact Or.inr ⟨H', Or.inr hH', hn⟩
    · rintro (hb | ⟨H', hH' | hH', hn⟩)
      · exact Or.inl (Or.inl hb)
      · exact Or.inl (Or.inr (hH' ▸ hn))
      · exact Or.inr ⟨H', hH', hn⟩

/-- Witness for C3: two saves over the base schema, the second reusing one key
of the first and adding one new key; the final column names are the base names
plus the union of the keys, "id" is never dropped, and the appended column is
nullable. -/
theorem update_table_schema_union_monotone_witness :
    ("foo" ∈ ([[("foo", PyValue.pyInt 1)],
        [("foo", PyValue.pyInt 2), ("bar", PyValue.pyStr "x")]].foldl
          update_table_schema modelsBaseSchema).map SchemaCol.name ↔
      "foo" ∈ modelsBaseSchema.map SchemaCol.name ∨
        ∃ H ∈ [[("foo", PyValue.pyInt 1)],
          [("foo", PyValue.pyInt 2), ("bar", PyValue.pyStr "x")]],
          "foo" ∈ H.map Prod.fst) ∧
    (update_table_schema modelsBaseSchema
        [("foo", PyValue.pyInt 1)]).take modelsBaseSchema.length
      = modelsBaseSchema :=
  ⟨(update_table_schema_union_monotone modelsBaseSchema
      [[("foo", PyValue.pyInt 1)],
       [("foo", PyValue.pyInt 2), ("bar", PyValue.pyStr "x")]]).1 "foo",
   (update_table_schema_union_monotone modelsBaseSchema
      [[("foo", PyValue.pyInt 1)],
       [("foo", PyValue.pyInt 2), ("bar", PyValue.pyStr "x")]]).2.1
     modelsBaseSchema [("foo", PyValue.pyInt 1)]⟩

-- ## Commit granularity of `save_model_and_add_record`

/-- A combined database state: the `models` table's schema and its rows. -/
structure DBState where
  schema : List SchemaCol
  rows : List Row
deriving DecidableEq, Repr, Inhabited

/-- One separately committed unit of database work. `migrateSchema` is the
Alembic `op.add_column` DDL, executed on its own engine connection inside
`update_table_schema`; `deleteRow` and `insertRow` are each followed by their
own `session.commit()` in `save_model_and_add_record`. -/
inductive TxUnit where
  | migrateSchema (cols : List (String × PyValue))
  | deleteRow (r : Row)
  | insertRow (r : Row)
deriving DecidableEq, Repr

/-- Effect of one committed unit on the database state. -/
def applyTx (s : DBState) : TxUnit → DBState
  | .migrateSchema cols => { s with schema := update_table_schema s.schema cols }
  | .deleteRow r => { s with rows := s.rows.erase r }
  | .insertRow r => { s with rows := s.rows ++ [r] }

/-- The separately committed units of one `save_model_and_add_record` call, in
their source order: the schema migration (database.py line 278, DDL emitted on
a fresh connection by lines 137-146), then — when a record with the same hash
exists — its deletion committed at line 318, then the insertion committed at
line 322. `otherCols` are the non-hyperparameter row columns (notebook id and
paths); `hyperparameters` drive the migration and are stored in the row. -/
def save_commit_trace (s : DBState) (model_hash : String)
    (otherCols hyperparameters : List (String × PyValue)) : List TxUnit :=
  [.migrateSchema hyperparameters] ++
  (match get_model_record s.rows [("hash", .pyStr model_hash)] with
   | .ok (some e) => [.deleteRow e]
   | _ => []) ++
  [.insertRow (newModelRow model_hash (otherCols ++ hyperparameters))]

/-- The states retained after each committed prefix of a call (the first entry
is the pre-call state, the last the post-call state; a failure between two
commits leaves the database at the corresponding intermediate entry). -/
def committedStates (s : DBState) (tr : List TxUnit) : List DBState :=
  tr.scanl applyTx s

/-- Counterexample to C4 as stated: starting from a fresh catalog (base schema,
no rows), saving a model with the previously-unseen hyperparameter "foo"
produces a committed intermediate state — retained if the call fails after the
migration — in which the column "foo" exists but no row carries the model's
hash, and which differs from both the pre-call and the post-call state,
so migration and row insertion are not one atomic unit. -/
theorem save_commit_not_atomic :
    ∃ s' ∈ committedStates ⟨modelsBaseSchema, []⟩
        (save_commit_trace ⟨modelsBaseSchema, []⟩ "abc"
          [("notebook_id", .pyStr "1-1")] [("foo", .pyInt 1)]),
      "foo" ∈ s'.schema.map SchemaCol.name ∧
      "foo" ∉ (DBState.mk modelsBaseSchema []).schema.map SchemaCol.name ∧
      countHash s'.rows (.pyStr "abc") = 0 ∧
      s' ≠ ⟨modelsBaseSchema, []⟩ ∧
      s' ≠ (committedStates ⟨modelsBaseSchema, []⟩
        (save_commit_trace ⟨modelsBaseSchema, []⟩ "abc"
          [("notebook_id", .pyStr "1-1")] [("foo", .pyInt 1)])).getLast! := by
  refine ⟨applyTx ⟨modelsBaseSchema, []⟩
    (.migrateSchema [("foo", .pyInt 1)]), ?_, ?_⟩
  · decide
  · refine ⟨by decide, by decide, by decide, by decide, by decide⟩

/-- C4 amended: within one `save_model_and_add_record` call the schema
migration is committed first, as its own unit separate from the row
insertion; consequently, for any save introducing a fresh hyperparameter key
for a payload whose hash is not yet catalogued, the state committed right
after the migration (and retained if the call fails there) has the new column
but no row with the payload's hash. -/
theorem save_commit_trace_migration_first (s₀ : DBState) (h : String)
    (otherCols hps : List (String × PyValue)) (k : String)
    (hk : k ∈ hps.map Prod.fst)
    (hfresh : k ∉ s₀.schema.map SchemaCol.name)
    (hnorow : countHash s₀.rows (.pyStr h) = 0) :
    (save_commit_trace s₀ h otherCols hps).head? = some (.migrateSchema hps) ∧
    2 ≤ (save_commit_trace s₀ h otherCols hps).length ∧
    applyTx s₀ (.migrateSchema hps) ∈
      committedStates s₀ (save_commit_trace s₀ h otherCols hps) ∧
    k ∈ (applyTx s₀ (.migrateSchema hps)).schema.map SchemaCol.name ∧
    k ∉ s₀.schema.map SchemaCol.name ∧
    countHash (applyTx s₀ (.migrateSchema hps)).rows (.pyStr h) = 0 := by
  have hself : ∀ (l : List TxUnit) (b : DBState), b ∈ l.scanl applyTx b := by
    intro l b
    cases l <;> simp [List.scanl]
  refine ⟨?_, ?_, ?_, ?_, hfresh, ?_⟩
  · simp [save_commit_trace]
  · simp only [save_commit_trace, List.append_assoc, List.length_append,
      List.length_cons, List.length_nil]
    omega
  · simp only [committedStates, save_commit_trace, List.append_assoc,
      List.cons_append, List.nil_append, List.scanl]
    exact List.mem_cons_of_mem _ (hself _ _)
  · simp only [applyTx]
    exact (update_table_schema_name_mem s₀.schema hps k).mpr (Or.inr hk)
  · simpa [applyTx] using hnorow

/-- Witness for the amended C4: the concrete fresh-catalog save of
`save_commit_not_atomic`, with the hypotheses discharged by evaluation. -/
theorem save_commit_trace_migration_first_witness :
    (save_commit_trace ⟨modelsBaseSchema, []⟩ "abc" [("notebook_id", .pyStr "1-1")]
        [("foo", .pyInt 1)]).head? = some (.migrateSchema [("foo", .pyInt 1)]) ∧
    2 ≤ (save_commit_trace ⟨modelsBaseSchema, []⟩ "abc" [("notebook_id", .pyStr "1-1")]
        [("foo", .pyInt 1)]).length ∧
    applyTx ⟨modelsBaseSchema, []⟩ (.migrateSchema [("foo", .pyInt 1)]) ∈
      committedStates ⟨modelsBaseSchema, []⟩
        (save_commit_trace ⟨modelsBaseSchema, []⟩ "abc" [("notebook_id", .pyStr "1-1")]
          [("foo", .pyInt 1)]) ∧
    "foo" ∈ (applyTx ⟨modelsBaseSchema, []⟩
        (.migrateSchema [("foo", .pyInt 1)])).schema.map SchemaCol.name ∧
    "foo" ∉ (DBState.mk modelsBaseSchema []).schema.map SchemaCol.name ∧
    countHash (applyTx ⟨modelsBaseSchema, []⟩
        (.migrateSchema [("foo", .pyInt 1)])).rows (.pyStr "abc") = 0 :=
  save_commit_trace_migration_first ⟨modelsBaseSchema, []⟩ "abc"
    [("notebook_id", .pyStr "1-1")] [("foo", .pyInt 1)] "foo"
    (by decide) (by decide) (by decide)

-- ## Content-addressed file store (`save_with_hash`)

/-- Serialized file contents: a byte list. -/
def Bytes : Type := List Nat

instance : DecidableEq Bytes := inferInstanceAs (DecidableEq (List Nat))

/-- The directory contents seen by `save_with_hash`: an association list from
path to file contents, where writing an existing path overwrites it. -/
structure FileSys where
  files : List (String × Bytes)
deriving DecidableEq

/-- Read a file's contents, `none` when the path does not exist. -/
def FileSys.readFile (fs : FileSys) (p : String) : Option Bytes :=
  List.lookup p fs.files

/-- Write (create or overwrite) a file. -/
def FileSys.write (fs : FileSys) (p : String) (b : Bytes) : FileSys :=
  ⟨(p, b) :: fs.files.filter (fun e => !(e.1 == p))⟩

/-- Remove a path if present. -/
def FileSys.remove (fs : FileSys) (p : String) : FileSys :=
  ⟨fs.files.filter (fun e => !(e.1 == p))⟩

/-- POSIX `Path.rename`: move `src` onto `dst`, silently replacing `dst`. -/
def FileSys.rename (fs : FileSys) (src dst : String) : FileSys :=
  match fs.readFile src with
  | none => fs
  | some b => (fs.remove src).write dst b

/-- Embedding of `hash_file` (database.py lines 184-190): the MD5 digest of
the file's raw bytes; the digest function itself is external (`hashlib`) and
passed as the argument `md5`. -/
def hash_file (md5 : Bytes → String) (fs : FileSys) (p : String) : String :=
  md5 ((fs.readFile p).getD [])

/-- Embedding of `generate_temp_path` (database.py lines 193-195); `tempName`
stands for the nondeterministic `temp_<uuid4>.eqx` component. -/
def generate_temp_path (directory tempName : String) : String :=
  directory ++ "/" ++ tempName

/-- Embedding of `save_with_hash` (database.py lines 198-207): serialize to a
temporary path, hash the serialized file, rename to the hash-derived final
path, return `(hash, final_path)` together with the resulting directory
contents. `payloadBytes` are the serialized bytes `feedbax.save` writes. -/
def save_with_hash (md5 : Bytes → String) (fs : FileSys)
    (directory tempName : String) (payloadBytes : Bytes) :
    String × String × FileSys :=
  let temp_path := generate_temp_path directory tempName
  let fs₁ := fs.write temp_path payloadBytes
  let file_hash := hash_file md5 fs₁ temp_path
  let final_path := directory ++ "/" ++ file_hash ++ ".eqx"
  (file_hash, final_path, fs₁.rename temp_path final_path)

theorem FileSys.readFile_write_self (fs : FileSys) (p : String) (b : Bytes) :
    (fs.write p b).readFile p = some b := by
  simp [FileSys.readFile, FileSys.write, List.lookup]

theorem FileSys.count_write_self (fs : FileSys) (p : String) (b : Bytes) :
    ((fs.write p b).files.filter (fun e => e.1 == p)).length = 1 := by
  simp only [FileSys.write, List.filter_cons]
  rw [if_pos (by simp)]
  rw [List.filter_filter]
  have hempty : fs.files.filter (fun e => (e.1 == p) && !(e.1 == p)) = [] := by
    apply List.filter_eq_nil_iff.mpr
    intro e _
    simp
  rw [hempty]
  rfl

theorem FileSys.rename_write_self (fs : FileSys) (p q : String) (b : Bytes) :
    (fs.write p b).rename p q = ((fs.write p b).remove p).write q b := by
  simp [FileSys.rename, FileSys.readFile_write_self]

/-- `save_with_hash` in closed form: the returned hash is the digest of the
payload bytes, the final path is derived from it, and the final directory
contents hold the payload at the final path. -/
theorem save_with_hash_spec (md5 : Bytes → String) (fs : FileSys)
    (directory tempName : String) (payloadBytes : Bytes) :
    save_with_hash md5 fs directory tempName payloadBytes
      = (md5 payloadBytes,
         directory ++ "/" ++ md5 payloadBytes ++ ".eqx",
         (((fs.write (generate_temp_path directory tempName) payloadBytes).remove
             (generate_temp_path directory tempName)).write
           (directory ++ "/" ++ md5 payloadBytes ++ ".eqx") payloadBytes)) := by
  simp only [save_with_hash, hash_file, FileSys.readFile_write_self,
    Option.getD_some, FileSys.rename_write_self]

/-- C2: saving the same payload bytes twice (with arbitrary distinct temporary
names) returns the same MD5 digest and the same hash-derived final path both
times, and after the second save the directory holds exactly one file with
that final name, containing the payload: the second save creates no second
distinct file. -/
theorem save_with_hash_idempotent (md5 : Bytes → String) (fs : FileSys)
    (directory t₁ t₂ : String) (payloadBytes : Bytes) :
    (save_with_hash md5 (save_with_hash md5 fs directory t₁ payloadBytes).2.2
        directory t₂ payloadBytes).1
      = (save_with_hash md5 fs directory t₁ payloadBytes).1 ∧
    (save_with_hash md5 (save_with_hash md5 fs directory t₁ payloadBytes).2.2
        directory t₂ payloadBytes).2.1
      = (save_with_hash md5 fs directory t₁ payloadBytes).2.1 ∧
    (((save_with_hash md5 (save_with_hash md5 fs directory t₁ payloadBytes).2.2
        directory t₂ payloadBytes).2.2).files.filter
          (fun e => e.1 == (save_with_hash md5 fs directory t₁ payloadBytes).2.1)).length
      = 1 ∧
    ((save_with_hash md5 (save_with_hash md5 fs directory t₁ payloadBytes).2.2
        directory t₂ payloadBytes).2.2).readFile
          (save_with_hash md5 fs directory t₁ payloadBytes).2.1
      = some payloadBytes := by
  simp only [save_with_hash_spec]
  exact ⟨trivial, trivial, FileSys.count_write_self _ _ _, FileSys.readFile_write_self _ _ _⟩

-- ## Evaluation identity hashes (`generate_eval_hash`)

/-- Ordering of parameter entries by key, as `json.dumps(..., sort_keys=True)`
serializes mapping keys in sorted order. -/
def byKeyLe (a b : String × PyValue) : Prop := a.1 ≤ b.1

instance : DecidableRel byKeyLe := fun a b => inferInstanceAs (Decidable (a.1 ≤ b.1))

instance : IsTotal (String × PyValue) byKeyLe := ⟨fun a b => le_total a.1 b.1⟩

instance : IsTrans (String × PyValue) byKeyLe := ⟨fun _ _ _ h₁ h₂ => le_trans h₁ h₂⟩

/-- The key-sorted entry list `json.dumps(..., sort_keys=True)` iterates. -/
def sortParams (params : List (String × PyValue)) : List (String × PyValue) :=
  List.insertionSort byKeyLe params

/-- JSON rendering of one scalar value, as `json.dumps` prints it. -/
def renderPyValue : PyValue → String
  | .pyBool b => if b then "true" else "false"
  | .pyInt n => toString n
  | .pyStr s => "\"" ++ s ++ "\""
  | .pyNone => "null"

/-- Model of `json.dumps(eval_params, sort_keys=True)` (external library,
called at database.py line 328): entries rendered in sorted key order with
the default separators. -/
def json_dumps_sorted (params : List (String × PyValue)) : String :=
  "\x7b" ++ String.intercalate ", "
      ((sortParams params).map (fun kv => "\"" ++ kv.1 ++ "\": " ++ renderPyValue kv.2))
    ++ "\x7d"

/-- The `f"{model_id or 'None'}"` fragment of `generate_eval_hash` (line 328):
a Python-falsy model id — `None`, but also `0` — renders as the string
"None"; any other id renders as its decimal form. -/
def modelIdStr : Option Int → String
  | none => "None"
  | some i => if i = 0 then "None" else toString i

/-- Embedding of `generate_eval_hash` (database.py lines 326-329). The MD5
digest over the encoded string is external and passed as `md5`. -/
def generate_eval_hash (md5 : String → String) (model_id : Option Int)
    (eval_params : List (String × PyValue)) : String :=
  md5 (modelIdStr model_id ++ "_" ++ json_dumps_sorted eval_params)

theorem pairwise_and_of {α : Type} {R S : α → α → Prop} :
    ∀ {l : List α}, l.Pairwise R → l.Pairwise S →
      l.Pairwise (fun a b => R a b ∧ S a b) := by
  intro l hR hS
  induction l with
  | nil => exact List.Pairwise.nil
  | cons a l ih =>
    rcases List.pairwise_cons.mp hR with ⟨hRa, hRl⟩
    rcases List.pairwise_cons.mp hS with ⟨hSa, hSl⟩
    exact List.pairwise_cons.mpr ⟨fun b hb => ⟨hRa b hb, hSa b hb⟩, ih hRl hSl⟩

/-- Sorting by key is insensitive to the input's order when keys are distinct:
the canonical-form lemma behind C8. -/
theorem sortParams_eq_of_perm (p₁ p₂ : List (String × PyValue))
    (hperm : p₁.Perm p₂) (hnd : (p₁.map Prod.fst).Nodup) :
    sortParams p₁ = sortParams p₂ := by
  haveI : IsAntisymm (String × PyValue)
      (fun a b => a.1 < b.1 ∨ a = b) := by
    constructor
    rintro a b (h₁ | rfl) h₂
    · rcases h₂ with h₂ | h₂
      · exact (lt_asymm h₁ h₂).elim
      · exact h₂.symm
    · rfl
  have hstrict : ∀ (p : List (String × PyValue)), (p.map Prod.fst).Nodup →
      (sortParams p).Pairwise (fun a b => a.1 < b.1 ∨ a = b) := by
    intro p hp
    have hsorted : (sortParams p).Pairwise byKeyLe :=
      List.sorted_insertionSort byKeyLe p
    have hndp : ((sortParams p).map Prod.fst).Nodup :=
      ((List.perm_insertionSort byKeyLe p).symm.map Prod.fst).nodup hp
    have hne : (sortParams p).Pairwise (fun a b => a.1 ≠ b.1) :=
      List.pairwise_map.mp hndp
    exact (pairwise_and_of hsorted hne).imp
      (fun h => Or.inl (lt_of_le_of_ne h.1 h.2))
  have hnd₂ : (p₂.map Prod.fst).Nodup := (hperm.map Prod.fst).nodup hnd
  have hp : (sortParams p₁).Perm (sortParams p₂) :=
    ((List.perm_insertionSort byKeyLe p₁).trans hperm).trans
      (List.perm_insertionSort byKeyLe p₂).symm
  exact List.eq_of_perm_of_sorted hp (hstrict p₁ hnd) (hstrict p₂ hnd₂)

/-- C8: two calls to the evaluation-identity hash with the same model
reference and equal evaluation-parameter mappings — the same key/value pairs
in any insertion order, keys distinct as in a Python dict — produce the same
identity key, for every digest function. -/
theorem generate_eval_hash_key_order_invariant (md5 : String → String)
    (model_id : Option Int) (p₁ p₂ : List (String × PyValue))
    (hperm : p₁.Perm p₂) (hnd : (p₁.map Prod.fst).Nodup) :
    generate_eval_hash md5 model_id p₁ = generate_eval_hash md5 model_id p₂ := by
  unfold generate_eval_hash json_dumps_sorted
  rw [sortParams_eq_of_perm p₁ p₂ hperm hnd]

/-- Witness for C8: the two-entry parameter mapping given in both insertion
orders hashes identically. -/
theorem generate_eval_hash_key_order_invariant_witness :
    generate_eval_hash id (some 5) [("b", .pyInt 2), ("a", .pyInt 1)]
      = generate_eval_hash id (some 5) [("a", .pyInt 1), ("b", .pyInt 2)] :=
  generate_eval_hash_key_order_invariant id (some 5)
    [("b", .pyInt 2), ("a", .pyInt 1)] [("a", .pyInt 1), ("b", .pyInt 2)]
    (List.Perm.swap _ _ _) (by decide)

/-- C9: because `f"{model_id or 'None'}"` treats the Python-falsy id `0` like
`None`, an evaluation of the model with id 0 receives exactly the same
identity key as an evaluation with no model reference, for every digest
function and every parameter mapping. -/
theorem generate_eval_hash_zero_collides_none (md5 : String → String)
    (eval_params : List (String × PyValue)) :
    generate_eval_hash md5 (some 0) eval_params
      = generate_eval_hash md5 none eval_params := by
  simp [generate_eval_hash, modelIdStr]

-- ## The labelled mapping `LDict` (types.py)

/-- Embedding of `LDict` (types.py lines 17-98): an immutable mapping carrying
a string label. `data` models the underlying insertion-ordered Python dict
`self._data` as an association list (a dict's keys are distinct). -/
structure LDict (K V : Type) where
  label : String
  data : List (K × V)
deriving DecidableEq, Repr

/-- The failure condition of `LDict.__getitem__` on an absent key (Python's
`KeyError`, the spec's `KeyNotFound`). -/
inductive KeyError where
  | keyNotFound
deriving DecidableEq, Repr

/-- Embedding of `LDict.__getitem__` (types.py lines 37-38): `self._data[key]`,
raising `KeyError` when the key is absent. -/
def LDict.getitem {K V : Type} [BEq K] (d : LDict K V) (key : K) : Except KeyError V :=
  match List.lookup key d.data with
  | some v => .ok v
  | none => .error .keyNotFound

/-- Embedding of `LDict.get` (types.py lines 67-68): `self._data.get(key,
default)`. The `default` argument models Python's, whose default is `None`
(`none` here); the stored value is returned when the key is present. -/
def LDict.get {K V : Type} [BEq K] (d : LDict K V) (key : K)
    (default : Option V := none) : Option V :=
  match List.lookup key d.data with
  | some v => some v
  | none => default

/-- C10: for every `LDict` and key absent from it, `get` returns `None`
(and returns the supplied default when one is given) without raising, while
subscript access fails with `KeyError`: the missing-key failure applies only
to bracket indexing. -/
theorem lookup_eq_none_of_key_absent {K V : Type} [BEq K] [LawfulBEq K] (key : K) :
    ∀ l : List (K × V), key ∉ l.map Prod.fst → List.lookup key l = none := by
  intro l
  induction l with
  | nil => intro _; rfl
  | cons kv rest ih =>
    intro habsent
    simp only [List.map_cons, List.mem_cons] at habsent
    push_neg at habsent
    rw [List.lookup_cons]
    have hbeq : (key == kv.1) = false := beq_eq_false_iff_ne.mpr habsent.1
    simp only [hbeq]
    exact ih habsent.2

theorem ldict_get_total_getitem_raises {K V : Type} [BEq K] [LawfulBEq K]
    (d : LDict K V) (key : K) (habsent : key ∉ d.data.map Prod.fst) :
    d.get key = none ∧
    (∀ v₀ : V, d.get key (some v₀) = some v₀) ∧
    d.getitem key = .error .keyNotFound := by
  have hlookup : List.lookup key d.data = none :=
    lookup_eq_none_of_key_absent key d.data habsent
  exact ⟨by simp [LDict.get, hlookup], fun v₀ => by simp [LDict.get, hlookup],
    by simp [LDict.getitem, hlookup]⟩

/-- Witness for C10: the key "1.0" is absent from an `LDict` holding only
"0.0"; `get` returns the default and subscripting fails. -/
theorem ldict_get_total_getitem_raises_witness :
    (LDict.mk "train_pert_std" [("0.0", 1)]).get "1.0" = none ∧
    (∀ v₀ : Nat, (LDict.mk "train_pert_std" [("0.0", 1)]).get "1.0" (some v₀) = some v₀) ∧
    (LDict.mk "train_pert_std" [("0.0", 1)]).getitem "1.0" = .error .keyNotFound :=
  ldict_get_total_getitem_raises (LDict.mk "train_pert_std" [("0.0", 1)]) "1.0" (by decide)

-- ## YAML round trip for `LDict` (types.py lines 101-115)

/-- A YAML mapping node carrying an explicit tag, the form in which the
external `yaml` library hands tagged mappings to representers and
constructors. Values are left opaque. -/
structure YamlTaggedMapping (V : Type) where
  tag : String
  entries : List (String × V)
deriving DecidableEq, Repr

/-- Embedding of `_ldict_representer` (types.py lines 102-105): serialize an
`LDict` as a mapping tagged `!LDict:<label>` over its underlying dict. -/
def _ldict_representer {V : Type} (d : LDict String V) : YamlTaggedMapping V :=
  ⟨"!LDict:" ++ d.label, d.data⟩

/-- Embedding of `_ldict_multi_constructor` (types.py lines 109-113): the tag
suffix after the registered prefix becomes the label, and the node's mapping
becomes the data. -/
def _ldict_multi_constructor {V : Type} (tag_suffix : String)
    (mapping : List (String × V)) : LDict String V :=
  ⟨tag_suffix, mapping⟩

/-- Dispatch of `yaml.SafeLoader.add_multi_constructor('!LDict:', ...)`
(types.py line 115), modelled from the yaml library's documented behaviour:
when a node's tag starts with the registered prefix, the multi-constructor is
invoked with the remainder of the tag. -/
def yaml_load_ldict {V : Type} (node : YamlTaggedMapping V) :
    Option (LDict String V) :=
  let pre := "!LDict:"
  if node.tag.data.take pre.data.length = pre.data then
    some (_ldict_multi_constructor ⟨node.tag.data.drop pre.data.length⟩ node.entries)
  else none

/-- C6: serializing any `LDict` with label `L` and mapping `M` as a tagged
YAML mapping and deserializing it through the registered multi-constructor
yields an `LDict` whose label is again `L` and whose contents are `M`. -/
theorem ldict_yaml_roundtrip {V : Type} (L : String) (M : List (String × V)) :
    yaml_load_ldict (_ldict_representer ⟨L, M⟩) = some ⟨L, M⟩ := by
  simp only [yaml_load_ldict, _ldict_representer, _ldict_multi_constructor]
  rw [String.data_append]
  rw [if_pos (List.take_left _ _)]
  rw [List.drop_left]

-- ## Flatten/unflatten of `LDict` trees (types.py lines 49-56)

/-- Embedding of `LDict.tree_flatten_with_keys` at one node: the children in
key order (jax pairs them with `DictKey`s, carried here by the key list),
plus the auxiliary data `(label, keys)`. -/
def LDict.tree_flatten_with_keys {K V : Type} (d : LDict K V) :
    List (K × V) × (String × List K) :=
  (d.data, (d.label, d.data.map Prod.fst))

/-- Embedding of `LDict.tree_unflatten`: rebuild an `LDict` from the auxiliary
data and a children list via `cls(label, dict(zip(keys, children)))`. -/
def LDict.tree_unflatten {K V : Type} (aux : String × List K)
    (children : List V) : LDict K V :=
  ⟨aux.1, aux.2.zip children⟩

mutual
/-- A PyTree whose interior nodes are `LDict`s over string keys and whose
leaves hold values of type `V`; jax's `tree_flatten`/`tree_unflatten` walk
such trees through the registered per-node methods. -/
inductive LTree (V : Type) where
  | leaf (v : V)
  | node (label : String) (entries : LEntries V)
/-- The ordered `(key, subtree)` entries of one `LDict` node. -/
inductive LEntries (V : Type) where
  | nil
  | cons (key : String) (t : LTree V) (rest : LEntries V)
end

mutual
/-- The static structure (treedef) of an `LTree`: labels and keys at the
nodes, with the leaf values removed. -/
inductive TreeDef where
  | leaf
  | node (label : String) (children : DefList)
/-- The ordered `(key, child treedef)` entries of one node of a `TreeDef`. -/
inductive DefList where
  | nil
  | cons (key : String) (d : TreeDef) (rest : DefList)
end

mutual
/-- jax `tree_flatten` over `LDict` nodes: the leaves in depth-first key
order, and the treedef holding every node's label and keys. -/
def LTree.flatten {V : Type} : LTree V → List V × TreeDef
  | .leaf v => ([v], .leaf)
  | .node label entries =>
    ((LEntries.flattenE entries).1, .node label (LEntries.flattenE entries).2)
/-- `LTree.flatten` over a node's entry list. -/
def LEntries.flattenE {V : Type} : LEntries V → List V × DefList
  | .nil => ([], .nil)
  | .cons k t rest =>
    ((LTree.flatten t).1 ++ (LEntries.flattenE rest).1,
     .cons k (LTree.flatten t).2 (LEntries.flattenE rest).2)
end

mutual
/-- jax `tree_unflatten`: rebuild a tree from a treedef and a leaf list,
consuming leaves left to right and returning the unconsumed remainder;
`none` when the leaf list runs out. -/
def TreeDef.unflatten {V : Type} : TreeDef → List V → Option (LTree V × List V)
  | .leaf, [] => none
  | .leaf, v :: rest => some (.leaf v, rest)
  | .node label ds, vs =>
    (DefList.unflattenL ds vs).map (fun p => (.node label p.1, p.2))
/-- `TreeDef.unflatten` over a node's child treedefs. -/
def DefList.unflattenL {V : Type} : DefList → List V → Option (LEntries V × List V)
  | .nil, vs => some (.nil, vs)
  | .cons k d ds, vs =>
    (TreeDef.unflatten d vs).bind (fun pt =>
      (DefList.unflattenL ds pt.2).map (fun pl => (.cons k pt.1 pl.1, pl.2)))
end

mutual
theorem LTree.unflatten_flatten {V : Type} :
    ∀ (t : LTree V) (rest : List V),
      TreeDef.unflatten (t.flatten).2 ((t.flatten).1 ++ rest) = some (t, rest)
  | .leaf v, rest => by
    simp [LTree.flatten, TreeDef.unflatten]
  | .node label entries, rest => by
    simp only [LTree.flatten, TreeDef.unflatten]
    rw [LEntries.unflattenE_flattenE entries rest]
    rfl
theorem LEntries.unflattenE_flattenE {V : Type} :
    ∀ (es : LEntries V) (rest : List V),
      DefList.unflattenL (es.flattenE).2 ((es.flattenE).1 ++ rest) = some (es, rest)
  | .nil, rest => by
    simp [LEntries.flattenE, DefList.unflattenL]
  | .cons k t rest', rest => by
    simp only [LEntries.flattenE, DefList.unflattenL, List.append_assoc]
    rw [LTree.unflatten_flatten t ((LEntries.flattenE rest').1 ++ rest)]
    rw [Option.some_bind]
    rw [LEntries.unflattenE_flattenE rest' rest]
    rfl
end

mutual
theorem TreeDef.flatten_unflatten {V : Type} :
    ∀ (td : TreeDef) (vs : List V) (t : LTree V) (rest : List V),
      TreeDef.unflatten td vs = some (t, rest) →
        (t.flatten).2 = td ∧ (t.flatten).1 ++ rest = vs
  | .leaf, [], t, rest => by
    intro h
    exact absurd h (by simp [TreeDef.unflatten])
  | .leaf, v :: vs', t, rest => by
    intro h
    simp only [TreeDef.unflatten, Option.some.injEq, Prod.mk.injEq] at h
    rw [← h.1, ← h.2]
    exact ⟨rfl, rfl⟩
  | .node label ds, vs, t, rest => by
    intro h
    simp only [TreeDef.unflatten] at h
    cases hC : DefList.unflattenL ds vs with
    | none =>
      rw [hC, Option.map_none'] at h
      exact absurd h (by simp)
    | some p =>
      rw [hC, Option.map_some'] at h
      simp only [Option.some.injEq, Prod.mk.injEq] at h
      obtain ⟨hes, hrest⟩ := DefList.flattenL_unflattenL ds vs p.1 p.2 (by rw [hC])
      rw [← h.1, ← h.2]
      simp only [LTree.flatten]
      exact ⟨by rw [hes], by rw [hrest]⟩
theorem DefList.flattenL_unflattenL {V : Type} :
    ∀ (ds : DefList) (vs : List V) (es : LEntries V) (rest : List V),
      DefList.unflattenL ds vs = some (es, rest) →
        (es.flattenE).2 = ds ∧ (es.flattenE).1 ++ rest = vs
  | .nil, vs, es, rest => by
    intro h
    simp only [DefList.unflattenL, Option.some.injEq, Prod.mk.injEq] at h
    rw [← h.1, ← h.2]
    exact ⟨rfl, rfl⟩
  | .cons k d ds', vs, es, rest => by
    intro h
    simp only [DefList.unflattenL] at h
    cases hT : TreeDef.unflatten d vs with
    | none =>
      rw [hT, Option.none_bind] at h
      exact absurd h (by simp)
    | some pt =>
      rw [hT, Option.some_bind] at h
      cases hL : DefList.unflattenL ds' pt.2 with
      | none =>
        rw [hL, Option.map_none'] at h
        exact absurd h (by simp)
      | some pl =>
        rw [hL, Option.map_some'] at h
        simp only [Option.some.injEq, Prod.mk.injEq] at h
        obtain ⟨hd, hvs⟩ := TreeDef.flatten_unflatten d vs pt.1 pt.2 (by rw [hT])
        obtain ⟨hds, hrest⟩ := DefList.flattenL_unflattenL ds' pt.2 pl.1 pl.2 (by rw [hL])
        rw [← h.1, ← h.2]
        simp only [LEntries.flattenE]
        refine ⟨by rw [hd, hds], ?_⟩
        rw [List.append_assoc, hrest, hvs]
end

/-- C5: flattening an `LDict` tree yields its leaves plus auxiliary structure
(labels and key sequences), and unflattening that structure with the original
leaves reconstructs the tree exactly — same label at every level, same keys in
the same order, same leaf values; conversely any successful unflattening
produces a tree whose structure is the given treedef and whose leaves are the
given values; and at one node, unflattening the auxiliary data with a new
value sequence of matching length yields an `LDict` with the same label, the
same keys, and the new values. -/
theorem ldict_flatten_unflatten_roundtrip (K V : Type) :
    (∀ t : LTree V, TreeDef.unflatten (t.flatten).2 (t.flatten).1 = some (t, [])) ∧
    (∀ (td : TreeDef) (vs : List V) (t' : LTree V) (rest : List V),
      TreeDef.unflatten td vs = some (t', rest) →
        (t'.flatten).2 = td ∧ (t'.flatten).1 ++ rest = vs) ∧
    (∀ d : LDict K V,
      LDict.tree_unflatten (d.tree_flatten_with_keys).2
        ((d.tree_flatten_with_keys).1.map Prod.snd) = d) ∧
    (∀ (d : LDict K V) (newVals : List V), newVals.length = d.data.length →
      (LDict.tree_unflatten (K := K) (d.tree_flatten_with_keys).2 newVals).label
          = d.label ∧
      (LDict.tree_unflatten (K := K) (d.tree_flatten_with_keys).2 newVals).data.map
          Prod.fst = d.data.map Prod.fst ∧
      (LDict.tree_unflatten (K := K) (d.tree_flatten_with_keys).2 newVals).data.map
          Prod.snd = newVals) := by
  refine ⟨fun t => ?_, TreeDef.flatten_unflatten, fun d => ?_, fun d newVals hlen => ?_⟩
  · simpa using LTree.unflatten_flatten t []
  · simp only [LDict.tree_unflatten, LDict.tree_flatten_with_keys]
    have h := List.zip_unzip d.data
    rw [List.unzip_eq_map] at h
    exact congrArg (LDict.mk d.label) h
  · refine ⟨rfl, ?_, ?_⟩
    · simp only [LDict.tree_unflatten, LDict.tree_flatten_with_keys]
      exact List.map_fst_zip _ _ (by simp [hlen])
    · simp only [LDict.tree_unflatten, LDict.tree_flatten_with_keys]
      exact List.map_snd_zip _ _ (by simp [hlen])

/-- Witness for C5: a successful unflattening of a single leaf, and a one-node
`LDict` rebuilt with a fresh value. -/
theorem ldict_flatten_unflatten_roundtrip_witness :
    (((LTree.leaf 7 : LTree Nat).flatten).2 = TreeDef.leaf ∧
      ((LTree.leaf 7 : LTree Nat).flatten).1 ++ [] = [7]) ∧
    ((LDict.tree_unflatten (K := String)
        ((LDict.mk "pert_amp" [("a", 5)]).tree_flatten_with_keys).2 [9]).label
          = (LDict.mk "pert_amp" [("a", 5)]).label ∧
      (LDict.tree_unflatten (K := String)
        ((LDict.mk "pert_amp" [("a", 5)]).tree_flatten_with_keys).2 [9]).data.map
          Prod.fst = (LDict.mk "pert_amp" [("a", 5)]).data.map Prod.fst ∧
      (LDict.tree_unflatten (K := String)
        ((LDict.mk "pert_amp" [("a", 5)]).tree_flatten_with_keys).2 [9]).data.map
          Prod.snd = [9]) :=
  ⟨(ldict_flatten_unflatten_roundtrip String Nat).2.1 TreeDef.leaf [7]
      (LTree.leaf 7) [] rfl,
   (ldict_flatten_unflatten_roundtrip String Nat).2.2.2
      (LDict.mk "pert_amp" [("a", 5)]) [9] rfl⟩
